import Mathlib

/-!
Verification development for the clash-royale-apriori batch pipeline
(three scripts: `step2_clean.py` the restructurer, `aaLosers.py` the rule
miner, `merge.py` the merger).  Python values are embedded shallowly:
fallible parses become `Option`, pandas columns become record fields,
floating supports become `Rat`, and the scripts' transformations become
executable Lean functions mirroring the source line by line.
-/

namespace CRA

/-- Character constants, named so that string-manipulating code can avoid
quote-heavy literals.  `squote`/`dquote` are the two Python quote chars. -/
def squote : Char := Char.ofNat 39

def dquote : Char := Char.ofNat 34

def commaChar : Char := Char.ofNat 44

def spaceChar : Char := Char.ofNat 32

def lbrackChar : Char := Char.ofNat 91

def rbrackChar : Char := Char.ofNat 93

def lparenChar : Char := Char.ofNat 40

def rparenChar : Char := Char.ofNat 41

/-- Python `str.strip()` on a char list: drop whitespace from both ends. -/
def stripListWs (l : List Char) : List Char :=
  ((l.dropWhile Char.isWhitespace).reverse.dropWhile Char.isWhitespace).reverse

/-- Python `str.strip()` for strings. -/
def pyStrip (s : String) : String := String.mk (stripListWs s.data)

/-- Python `str.strip(chars)`: drop any of the given chars from both ends. -/
def stripListSet (cs : List Char) (l : List Char) : List Char :=
  ((l.dropWhile (· ∈ cs)).reverse.dropWhile (· ∈ cs)).reverse

/-- Python `str.strip(chars)` for strings. -/
def pyStripSet (cs : List Char) (s : String) : String := String.mk (stripListSet cs s.data)

/-- Python `list(dict.fromkeys(l))`: deduplicate keeping first occurrences,
with an accumulator of already seen elements. -/
def dedupFirstAux {α : Type} [DecidableEq α] : List α → List α → List α
  | _, [] => []
  | seen, x :: xs =>
      if x ∈ seen then dedupFirstAux seen xs else x :: dedupFirstAux (x :: seen) xs

/-- Python `list(dict.fromkeys(l))`: deduplicate keeping first occurrences. -/
def dedupFirst {α : Type} [DecidableEq α] (l : List α) : List α := dedupFirstAux [] l

/-! ## Restructurer (`step2_clean.py`)

A raw battle row carries, per player, the result of `ast.literal_eval` on
the stringified deck and stats cells: `none` models the eval raising (the
`except` branch of the loop body).  The stats dict's `.get` lookups become
`Option` fields. -/

/-- The four stat fields obtained via `stats.get(...)`; a missing key is
`none` (Python `None`). -/
structure PStats where
  avg_elixir : Option Int
  four_card_cycle : Option Int
  elixir_leaked : Option Int
  tower_hp : Option Int
deriving DecidableEq, Repr

/-- One row of the merged raw battle table (after `pd.concat`).  The deck
and stats cells are stored as their `ast.literal_eval` outcome. -/
structure RawBattle where
  battle_id : Nat
  game_result : String
  p1_deck : Option (List String)
  p1_stats : Option PStats
  p2_deck : Option (List String)
  p2_stats : Option PStats
deriving DecidableEq, Repr

/-- One restructured per-player row, as appended inside the double loop of
`step2_clean.py` (fields `battle_id, result, player_num, player_deck` and
the four `stats.get` fields). -/
structure PRow where
  battle_id : Nat
  result : String
  player_num : Nat
  player_deck : List String
  avg_elixir : Option Int
  four_card_cycle : Option Int
  elixir_leaked : Option Int
  tower_hp : Option Int
deriving DecidableEq, Repr

/-- A restructured row after the `winner` column is assigned. -/
structure WRow extends PRow where
  winner : Nat
deriving DecidableEq, Repr

/-- A restructured row after `opp_tower_hp` and `dmg_dif` are assigned. -/
structure FRow extends WRow where
  opp_tower_hp : Option Int
  dmg_dif : Option Int
deriving DecidableEq, Repr

/-- The body of the inner loop for one player slot: both `literal_eval`s
must succeed (the `try` block), otherwise the slot is skipped. -/
def parsePlayer (b : RawBattle) (pn : Nat) : Option PRow :=
  let d := if pn = 1 then b.p1_deck else b.p2_deck
  let s := if pn = 1 then b.p1_stats else b.p2_stats
  match d, s with
  | some deck, some st =>
      some ⟨b.battle_id, b.game_result, pn, deck,
            st.avg_elixir, st.four_card_cycle, st.elixir_leaked, st.tower_hp⟩
  | _, _ => none

/-- `df.drop_duplicates(subset='battle_id')`: keep the first row for each
battle id. -/
def dedupBattlesAux : List Nat → List RawBattle → List RawBattle
  | _, [] => []
  | seen, b :: rest =>
      if b.battle_id ∈ seen then dedupBattlesAux seen rest
      else b :: dedupBattlesAux (b.battle_id :: seen) rest

/-- `df.drop_duplicates(subset='battle_id')`. -/
def dedupBattles (df : List RawBattle) : List RawBattle := dedupBattlesAux [] df

/-- The restructuring double loop: for each battle, for `player_num` in
`[1, 2]`, emit a row when both literals parse, else skip that player. -/
def restructure (df : List RawBattle) : List PRow :=
  df.flatMap (fun b => [1, 2].filterMap (parsePlayer b))

/-- `restructured_df['winner'] = player_num.apply(lambda x: 1 if x == 1 else 0)`. -/
def addWinner (rows : List PRow) : List WRow :=
  rows.map (fun p => { toPRow := p, winner := if p.player_num = 1 then 1 else 0 })

/-- Pandas NaN-propagating subtraction of two nullable columns. -/
def subOpt (a b : Option Int) : Option Int :=
  match a, b with
  | some x, some y => some (x - y)
  | _, _ => none

/-- The per-`battle_id` tower-hp column of a row list, in row order. -/
def towerSeq (rs : List WRow) (bid : Nat) : List (Option Int) :=
  (rs.filter (fun r => r.battle_id = bid)).map (fun r => r.tower_hp)

/-- Scatter step of `groupby('battle_id')['tower_hp'].transform(reversed)`:
each row takes the next unconsumed value of its group's (already reversed)
sequence; `dmg_dif` is the NaN-propagating `tower_hp - opp_tower_hp`. -/
def revAssign (m : Nat → List (Option Int)) : List WRow → List FRow
  | [] => []
  | r :: rest =>
      let l := m r.battle_id
      let o := l.headD none
      { toWRow := r, opp_tower_hp := o, dmg_dif := subOpt r.tower_hp o } ::
        revAssign (fun b => if b = r.battle_id then l.tail else m b) rest

/-- Lines 44-45 of `step2_clean.py`: assign `opp_tower_hp` by reversing each
battle group's tower-hp sequence positionally, then `dmg_dif`. -/
def addOppDmg (rs : List WRow) : List FRow :=
  revAssign (fun bid => (towerSeq rs bid).reverse) rs

/-- The whole restructurer: merge (given), dedup, restructure, winner,
opponent tower hp and damage differential. -/
def step2Pipeline (df : List RawBattle) : List FRow :=
  addOppDmg (addWinner (restructure (dedupBattles df)))

/-! ## Rule miner (`aaLosers.py`): deck-cell parsing

A `player_deck` cell is NaN, an actual Python list, or a string.
`ast.literal_eval` is modelled on the fragment it is applied to here:
list/tuple literals of single-quoted strings without escape sequences.
Any other input makes the model return `none`, which `parse_deck` sends to
the comma-split fallback exactly as the source's `except`/non-list
branches do. -/

/-- A pandas cell as seen by `parse_deck`. -/
inductive Cell where
  | na : Cell
  | lst : List String → Cell
  | str : String → Cell
deriving DecidableEq, Repr

/-- Scan a single-quoted string body: consume chars up to the closing
quote, returning the body and the remainder. -/
def parseQuoted : List Char → Option (List Char × List Char)
  | [] => none
  | c :: cs =>
      if c = squote then some ([], cs)
      else
        match parseQuoted cs with
        | some (s, r) => some (c :: s, r)
        | none => none

/-- After one parsed item: either the closing bracket ends the literal, or
a comma-space-quote starts the next item.  Fueled by the input length. -/
def parseItemsTail : Nat → Char → List Char → Option (List (List Char))
  | _, cl, c :: [] => if c = cl then some [] else none
  | Nat.succ fuel, cl, c1 :: c2 :: c3 :: cs =>
      if c1 = commaChar ∧ c2 = spaceChar ∧ c3 = squote then
        match parseQuoted cs with
        | some (s, r) =>
            match parseItemsTail fuel cl r with
            | some ts => some (s :: ts)
            | none => none
        | none => none
      else none
  | _, _, _ => none

/-- Model of `ast.literal_eval` restricted to the deck-literal fragment:
a `[...]` or `(...)` literal of single-quoted strings.  `none` stands for
the eval raising or producing a non-list/tuple value. -/
def literalEvalDeck (s : String) : Option (List String) :=
  match s.data with
  | [] => none
  | c :: cs =>
      let close := if c = lbrackChar then some rbrackChar
                   else if c = lparenChar then some rparenChar else none
      match close with
      | none => none
      | some cl =>
          match cs with
          | [] => none
          | d :: ds =>
              if d = cl ∧ ds = [] then some []
              else if d = squote then
                match parseQuoted ds with
                | some (x, r) =>
                    match parseItemsTail r.length cl r with
                    | some ts => some ((x :: ts).map (fun l => String.mk l))
                    | none => none
                | none => none
              else none

/-- Python `str(list_of_strings)`, at the char-list level: the tail after
the first item. -/
def tailReprL : List (List Char) → List Char
  | [] => [rbrackChar]
  | y :: ys => commaChar :: spaceChar :: squote :: (y ++ squote :: tailReprL ys)

/-- Python `str(list_of_strings)` at the char-list level. -/
def reprDeckL : List (List Char) → List Char
  | [] => [lbrackChar, rbrackChar]
  | x :: xs => lbrackChar :: squote :: (x ++ squote :: tailReprL xs)

/-- Python `str(l)` for a list of (quote-free) strings. -/
def reprDeck (xs : List String) : String := String.mk (reprDeckL (xs.map String.data))

/-- The quote characters stripped by the fallback's `.strip("'\x22")`. -/
def quoteChars : List Char := [squote, dquote]

/-- The bracket characters stripped by the fallback's `.strip("[]")`. -/
def bracketChars : List Char := [lbrackChar, rbrackChar]

/-- Python `str.split(",")`: split at every comma, keeping empty pieces. -/
def splitCommaAux : List Char → List Char → List (List Char)
  | acc, [] => [acc.reverse]
  | acc, c :: cs =>
      if c = commaChar then acc.reverse :: splitCommaAux [] cs
      else splitCommaAux (c :: acc) cs

/-- Python `str.split(",")` for strings. -/
def splitComma (s : String) : List String := (splitCommaAux [] s.data).map String.mk

/-- Line 44/46 of `aaLosers.py`: the comma-split fallback
`[c.strip().strip(quotes) for c in str(cell).strip("[]").split(",") if c.strip()]`. -/
def fallbackSplit (s : String) : List String :=
  (splitComma (pyStripSet bracketChars s)).filterMap
    (fun c => if pyStrip c = "" then none else some (pyStripSet quoteChars (pyStrip c)))

/-- `parse_deck` from `aaLosers.py` lines 34-46. -/
def parse_deck : Cell → List String
  | Cell.na => []
  | Cell.lst xs => xs.map pyStrip
  | Cell.str s =>
      match literalEvalDeck s with
      | some xs => xs.map pyStrip
      | none => fallbackSplit s

/-! ## Rule miner: transactions, itemsets, rules -/

/-- One row of the miner's input CSV: the `player_deck` cell and the
`winner` cell (`none` models a NaN winner). -/
structure MinerRow where
  player_deck : Cell
  winner : Option Int
deriving DecidableEq, Repr

/-- `fillna(0).astype(int)` on the `winner` column. -/
def fillnaWinner (w : Option Int) : Int := w.getD 0

/-- The synthetic outcome item of lines 54-55. -/
def outcomeItem (w : Option Int) : String :=
  if fillnaWinner w = 1 then "OUTCOME=WIN" else "OUTCOME=LOSS"

/-- Lines 53-59: one Pipeline A transaction — deduplicated non-empty card
items plus the outcome item. -/
def transWithOutcome (r : MinerRow) : List String :=
  dedupFirst ((parse_deck r.player_deck).filter (fun c => c ≠ "")) ++ [outcomeItem r.winner]

/-- Line 167: `raw_df.loc[raw_df["winner"].fillna(0).astype(int) == 0]`. -/
def lossOnly (df : List MinerRow) : List MinerRow :=
  df.filter (fun r => fillnaWinner r.winner = 0)

/-- One row of the frequent-itemset table: a support and an item set. -/
structure ItemsetRow where
  support : Rat
  itemsets : Finset String
deriving DecidableEq

/-- The one-hot matrix `X`: its column names and, per transaction row, the
set of items whose cell is True. -/
structure OneHot where
  cols : List String
  rows : List (Finset String)
deriving DecidableEq

/-- `float(X_df[itm].mean())`, as an exact rational. -/
def colMean (X : OneHot) (itm : String) : Rat :=
  ((X.rows.countP (fun t => itm ∈ t) : Int) : Rat) / ((X.rows.length : Int) : Rat)

/-- `items_in_sets` of `ensure_singletons`: every item of every itemset
(first-occurrence order standing in for Python's set iteration). -/
def itemsInSets (df : List ItemsetRow) : List String :=
  dedupFirst (df.flatMap (fun r => r.itemsets.sort (· ≤ ·)))

/-- `existing_singletons`: the members of the length-1 itemsets. -/
def existingSingletons (df : List ItemsetRow) : List String :=
  (df.filter (fun r => r.itemsets.card = 1)).flatMap (fun r => r.itemsets.sort (· ≤ ·))

/-- `ensure_singletons` (lines 69-87): append a singleton row, with support
the empirical column mean, for every item of any itemset that lacks one
and is a column of `X`. -/
def ensure_singletons (df : List ItemsetRow) (X : OneHot) : List ItemsetRow :=
  let missing := (itemsInSets df).filter (fun itm => itm ∉ existingSingletons df)
  df ++ missing.filterMap
    (fun itm => if itm ∈ X.cols then some ⟨colMean X itm, {itm}⟩ else none)

/-- One row of the `association_rules` output, restricted to the columns
this script reads. -/
structure Rule where
  antecedents : Finset String
  consequents : Finset String
  support : Rat
  confidence : Rat
  lift : Rat
deriving DecidableEq

/-- Line 114: keep rules whose consequent is exactly `{OUTCOME=LOSS}`. -/
def lossConsequentFilter (rs : List Rule) : List Rule :=
  rs.filter (fun r => r.consequents = ({"OUTCOME=LOSS"} : Finset String))

/-- Lines 118-121: the antecedent-cardinality filter with its derived
bounds `min_ant = max(1, min_cardinality-1)`, `max_ant = max(1, max_cardinality-1)`. -/
def cardinalityFilter (minCard maxCard : Int) (rs : List Rule) : List Rule :=
  let min_ant := max 1 (minCard - 1)
  let max_ant := max 1 (maxCard - 1)
  rs.filter (fun r => min_ant ≤ (r.antecedents.card : Int) ∧ (r.antecedents.card : Int) ≤ max_ant)

/-- Lines 123-124: the lift filter, applied when `min_lift` is not None. -/
def liftFilter (minLift : Option Rat) (rs : List Rule) : List Rule :=
  match minLift with
  | some m => rs.filter (fun r => m ≤ r.lift)
  | none => rs

/-- Line 128-129: `", ".join(sorted(s))`. -/
def joinSorted (s : Finset String) : String :=
  String.intercalate ", " (s.sort (· ≤ ·))

/-- Line 155's sort key order: descending (lift, confidence, support). -/
def ruleLE (a b : Rule) : Bool :=
  decide (b.lift < a.lift ∨ (b.lift = a.lift ∧ (b.confidence < a.confidence ∨
    (b.confidence = a.confidence ∧ b.support ≤ a.support))))

/-- Lines 111-158 after rule generation: the transformations applied to the
generated rule table before it is written to `rules_predicting_LOSS.csv`
(consequent filter, cardinality filter, lift filter, sort). -/
def finalLossRules (minCard maxCard : Int) (minLift : Option Rat) (rs : List Rule) : List Rule :=
  (liftFilter minLift (cardinalityFilter minCard maxCard (lossConsequentFilter rs))).mergeSort ruleLE

/-! ## Rule miner: module-level control flow

`aaLosers.py` is a straight-line script; whether it aborts depends only on
the column check at lines 30-31 and on Python name resolution for each
top-level statement.  The statements of lines 29-194 are transcribed as
(line, names read, names bound) triples, and a generic evaluator raises
`NameError` at the first statement reading an unbound module-level name. -/

/-- The two ways the script can abort: the explicit `ValueError` of line
31, or a `NameError` from an unbound module-level name. -/
inductive RunError where
  | valueError : RunError
  | nameError : RunError
deriving DecidableEq, Repr

/-- One top-level statement: its source line, the module-level names it
reads, and the names it binds. -/
structure Stmt where
  line : Nat
  reads : List String
  binds : List String
deriving DecidableEq, Repr

/-- Execute straight-line statements: a statement whose read names are all
bound extends the environment with the names it binds; otherwise the
interpreter raises `NameError`. -/
def execStmts : List Stmt → List String → Except RunError (List String)
  | [], env => Except.ok env
  | s :: rest, env =>
      if s.reads.all (fun n => env.contains n) then execStmts rest (s.binds ++ env)
      else Except.error RunError.nameError

/-- Names bound before line 29 executes: the imports of lines 1-6 and the
CLI block of lines 11-24. -/
def aaLosersInitEnv : List String :=
  ["os", "ast", "argparse", "pd", "TransactionEncoder", "apriori",
   "association_rules", "parser", "args", "IN_CSV", "OUTDIR"]

/-- The top-level statements of `aaLosers.py` after the column check
(lines 34-194), as (line, reads, binds). -/
def aaLosersStmts : List Stmt :=
  [⟨34, [], ["parse_deck"]⟩,
   ⟨49, ["raw_df", "parse_deck"], ["trans_cards"]⟩,
   ⟨53, [], ["trans_with_outcome"]⟩,
   ⟨54, ["trans_cards", "raw_df", "trans_with_outcome"], ["cards", "win", "outcome", "items"]⟩,
   ⟨64, ["TransactionEncoder"], ["te"]⟩,
   ⟨65, ["te", "trans_with_outcome"], ["onehot"]⟩,
   ⟨66, ["pd", "onehot", "te"], ["X"]⟩,
   ⟨69, [], ["ensure_singletons"]⟩,
   ⟨92, ["apriori", "X", "args"], ["itemsets_all"]⟩,
   ⟨98, ["itemsets_all"], []⟩,
   ⟨100, ["ensure_singletons", "itemsets_all", "X"], ["itemsets_all"]⟩,
   ⟨101, ["itemsets_all"], []⟩,
   ⟨109, ["rules"], ["rules"]⟩,
   ⟨111, ["association_rules", "itemsets_all", "args"], ["rules"]⟩,
   ⟨114, ["rules"], ["rules"]⟩,
   ⟨118, ["rules"], []⟩,
   ⟨119, ["args"], ["min_ant"]⟩,
   ⟨120, ["args"], ["max_ant"]⟩,
   ⟨121, ["rules", "min_ant", "max_ant"], ["rules"]⟩,
   ⟨123, ["args", "rules"], ["rules"]⟩,
   ⟨127, ["rules"], ["rules"]⟩,
   ⟨133, ["rules"], ["rules"]⟩,
   ⟨139, ["rules", "itemsets_all"], ["support_map", "sup_of", "rules"]⟩,
   ⟨150, [], ["col_order"]⟩,
   ⟨154, ["col_order", "rules"], ["existing"]⟩,
   ⟨155, ["rules", "existing"], ["rules"]⟩,
   ⟨157, ["os", "OUTDIR"], ["rules_out"]⟩,
   ⟨158, ["rules", "rules_out"], []⟩,
   ⟨160, ["rules", "args", "rules_out"], []⟩,
   ⟨167, ["raw_df"], ["loss_only"]⟩,
   ⟨168, ["loss_only", "parse_deck"], ["trans_win"]⟩,
   ⟨170, ["TransactionEncoder"], ["te2"]⟩,
   ⟨171, ["te2", "trans_win"], ["X_win"]⟩,
   ⟨172, ["pd", "X_win", "te2"], ["X_win"]⟩,
   ⟨174, ["apriori", "X_win", "args"], ["itemsets_win"]⟩,
   ⟨180, ["itemsets_win", "args"], ["itemsets_win"]⟩,
   ⟨184, ["itemsets_win"], ["itemsets_win"]⟩,
   ⟨187, ["os", "OUTDIR"], ["itemsets_out"]⟩,
   ⟨188, ["itemsets_win", "itemsets_out"], []⟩,
   ⟨190, ["itemsets_win", "args", "itemsets_out"], []⟩]

/-- The module-level run of `aaLosers.py`: line 29 loads the CSV, lines
30-31 raise `ValueError` unless both required columns are present, then
the remaining statements execute in order. -/
def aaLosersMain (hasPlayerDeckCol hasWinnerCol : Bool) : Except RunError (List String) :=
  if hasPlayerDeckCol && hasWinnerCol then
    execStmts aaLosersStmts ("raw_df" :: aaLosersInitEnv)
  else Except.error RunError.valueError

/-! ## Merger (`merge.py`) -/

/-- A loaded rule CSV: its column list and its records as (column, value)
association lists. -/
structure DF where
  cols : List String
  recs : List (List (String × String))
deriving DecidableEq, Repr

/-- Read one cell of a record by column name (`none` when absent). -/
def lookupCell (rec : List (String × String)) (c : String) : Option String :=
  match rec with
  | [] => none
  | kv :: rest => if kv.1 = c then some kv.2 else lookupCell rest c

/-- Align one record to a full column list; columns the record lacks
become `none` (NaN). -/
def reindex (cols : List String) (rec : List (String × String)) : List (Option String) :=
  cols.map (fun c => lookupCell rec c)

/-- The result of `pd.concat`: the combined column list and the aligned
rows. -/
structure DFOut where
  cols : List String
  rows : List (List (Option String))
deriving DecidableEq, Repr

/-- The combined column list of `pd.concat([df_loss, df_win])`: the first
frame's columns followed by the second's new ones, in order. -/
def concatCols (d1 d2 : DF) : List String :=
  d1.cols ++ d2.cols.filter (fun c => c ∉ d1.cols)

/-- Line 15 of `merge.py`:
`df_master = pd.concat([df_loss, df_win], ignore_index=True)` — loss rows
then win rows, each aligned to the union columns with NaN for the rest. -/
def concatRules (d1 d2 : DF) : DFOut :=
  ⟨concatCols d1 d2, (d1.recs ++ d2.recs).map (reindex (concatCols d1 d2))⟩

/-! ## Claim-side definitions and concrete sample data -/

/-- The claimed output-count formula of the restructurer: battles for which
both players' literals parse. -/
def bothParseCount (df : List RawBattle) : Nat :=
  (df.filter (fun b => (parsePlayer b 1).isSome && (parsePlayer b 2).isSome)).length

/-- A fully parseable battle: both decks and stat bundles parse; tower HPs
100 and 80 for players 1 and 2. -/
def battleFull : RawBattle :=
  ⟨7, "p1", some ["zap", "knight"], some ⟨some 3, some 10, some 2, some 100⟩,
   some ["rage", "golem"], some ⟨some 4, some 11, some 1, some 80⟩⟩

/-- A battle whose player-1 literals parse but whose player-2 literals
raise (malformed cells). -/
def battleHalf : RawBattle :=
  ⟨8, "p1", some ["zap", "knight"], some ⟨some 3, some 10, some 2, some 100⟩, none, none⟩

/-- The first restructured row of `step2Pipeline [battleFull]`. -/
def sampleRow1 : FRow :=
  ⟨⟨⟨7, "p1", 1, ["zap", "knight"], some 3, some 10, some 2, some 100⟩, 1⟩, some 80, some 20⟩

/-- The winner-annotated rows of `battleFull`, used as a two-row battle
group. -/
def sampleWRows : List WRow :=
  [⟨⟨7, "p1", 1, ["zap", "knight"], some 3, some 10, some 2, some 100⟩, 1⟩,
   ⟨⟨7, "p1", 2, ["rage", "golem"], some 4, some 11, some 1, some 80⟩, 0⟩]

/-- The deck cell of the C8 counterexample: the 7-character string
`a, <quote> b<quote>` on which `ast.literal_eval` raises, sending
`parse_deck` to the comma-split fallback. -/
def cellCex : Cell :=
  Cell.str (String.mk [Char.ofNat 97, commaChar, spaceChar, squote, spaceChar, Char.ofNat 98, squote])

/-- A rule predicting a loss from a single antecedent card. -/
def sampleLossRule : Rule := ⟨{"golem"}, {"OUTCOME=LOSS"}, 3 / 10, 1, 2⟩

/-- A rule whose consequent is not the loss outcome. -/
def sampleWinRule : Rule := ⟨{"zap"}, {"OUTCOME=WIN"}, 7 / 10, 1, 1⟩

/-- A mined itemset table with one pair itemset and no singletons. -/
def sampleItemsets : List ItemsetRow := [⟨3 / 10, {"golem", "rage"}⟩]

/-- A one-hot matrix over three columns and two transactions. -/
def sampleOneHot : OneHot :=
  ⟨["golem", "rage", "OUTCOME=LOSS"], [{"golem", "rage", "OUTCOME=LOSS"}, {"golem"}]⟩

/-- A miner input row whose `winner` cell is NaN. -/
def sampleNaNRow : MinerRow := ⟨Cell.lst ["zap", "knight"], none⟩

/-- A three-column rule table for the merger. -/
def sampleDfLoss : DF :=
  ⟨["A", "B", "C"], [[("A", "a1"), ("B", "b1"), ("C", "c1")]]⟩

/-- A rule table sharing two columns with `sampleDfLoss` and adding one. -/
def sampleDfWin : DF :=
  ⟨["B", "C", "D"], [[("B", "b2"), ("C", "c2"), ("D", "d2")], [("B", "b3"), ("C", "c3"), ("D", "d3")]]⟩

/-! ## Helper lemmas -/

theorem mem_dedupFirstAux {α : Type} [DecidableEq α] (a : α) :
    ∀ (l seen : List α), a ∈ dedupFirstAux seen l ↔ a ∈ l ∧ a ∉ seen := by
  intro l
  induction l with
  | nil => intro seen; simp [dedupFirstAux]
  | cons x xs ih =>
      intro seen
      by_cases hx : x ∈ seen
      · simp only [dedupFirstAux, if_pos hx, ih, List.mem_cons]
        constructor
        · rintro ⟨h1, h2⟩; exact ⟨Or.inr h1, h2⟩
        · rintro ⟨h1 | h1, h2⟩
          · exact absurd hx (h1 ▸ h2)
          · exact ⟨h1, h2⟩
      · simp only [dedupFirst, dedupFirstAux, if_neg hx, List.mem_cons, ih]
        constructor
        · rintro (rfl | ⟨h1, h2⟩)
          · exact ⟨Or.inl rfl, hx⟩
          · refine ⟨Or.inr h1, fun hs => h2 (Or.inr hs)⟩
        · rintro ⟨rfl | h1, h2⟩
          · exact Or.inl rfl
          · by_cases hax : a = x
            · exact Or.inl hax
            · exact Or.inr ⟨h1, fun hs => by
                rcases hs with h | h
                · exact hax h
                · exact h2 h⟩

theorem mem_dedupFirst {α : Type} [DecidableEq α] (a : α) (l : List α) :
    a ∈ dedupFirst l ↔ a ∈ l := by
  simp [dedupFirst, mem_dedupFirstAux]

theorem dedupBattlesAux_eq_self :
    ∀ (df : List RawBattle) (seen : List Nat),
      (df.map RawBattle.battle_id).Nodup → (∀ b ∈ df, b.battle_id ∉ seen) →
      dedupBattlesAux seen df = df := by
  intro df
  induction df with
  | nil => intro seen _ _; rfl
  | cons b rest ih =>
      intro seen hnd hseen
      have hb : b.battle_id ∉ seen := hseen b (List.mem_cons_self b rest)
      rw [dedupBattlesAux, if_neg hb]
      have hnd' := (List.nodup_cons.mp hnd)
      refine congrArg (b :: ·) (ih _ hnd'.2 ?_)
      intro x hx hmem
      rcases List.mem_cons.mp hmem with h | h
      · exact hnd'.1 (h ▸ List.mem_map_of_mem RawBattle.battle_id hx)
      · exact hseen x (List.mem_cons_of_mem b hx) h

theorem dedupBattles_eq_self (df : List RawBattle)
    (h : (df.map RawBattle.battle_id).Nodup) : dedupBattles df = df :=
  dedupBattlesAux_eq_self df [] h (by intro b _ hb; exact List.not_mem_nil _ hb)

theorem playerSlots_length (b : RawBattle) :
    ([1, 2].filterMap (parsePlayer b)).length =
      (if (parsePlayer b 1).isSome then 1 else 0) +
      (if (parsePlayer b 2).isSome then 1 else 0) := by
  rcases h1 : parsePlayer b 1 with _ | p1 <;> rcases h2 : parsePlayer b 2 with _ | p2 <;>
    simp [List.filterMap_cons, h1, h2]

theorem restructure_length (df : List RawBattle) :
    (restructure df).length =
      (df.map (fun b => (if (parsePlayer b 1).isSome then 1 else 0) +
        (if (parsePlayer b 2).isSome then 1 else 0))).sum := by
  induction df with
  | nil => rfl
  | cons b rest ih =>
      simp only [restructure, List.flatMap_cons, List.length_append, List.map_cons,
        List.sum_cons] at ih ⊢
      rw [playerSlots_length, ih]

theorem revAssign_map_toWRow :
    ∀ (rs : List WRow) (m : Nat → List (Option Int)),
      (revAssign m rs).map FRow.toWRow = rs := by
  intro rs
  induction rs with
  | nil => intro m; rfl
  | cons r rest ih => intro m; simp only [revAssign, List.map_cons, ih]

theorem revAssign_filter_opp :
    ∀ (rs : List WRow) (bid : Nat) (m : Nat → List (Option Int)),
      (m bid).length = (rs.filter (fun r => r.battle_id = bid)).length →
      ((revAssign m rs).filter (fun x => x.battle_id = bid)).map
        (fun x => x.opp_tower_hp) = m bid := by
  intro rs
  induction rs with
  | nil =>
      intro bid m h
      simp only [List.filter_nil, List.length_nil] at h
      simp [revAssign, List.length_eq_zero.mp h]
  | cons r rest ih =>
      intro bid m h
      by_cases hb : r.battle_id = bid
      · subst hb
        rw [List.filter_cons, if_pos (by simp)] at h
        obtain ⟨a, t, hat⟩ : ∃ a t, m r.battle_id = a :: t := by
          cases hmb : m r.battle_id with
          | nil => rw [hmb] at h; simp at h
          | cons a t => exact ⟨a, t, rfl⟩
        simp only [revAssign, List.filter_cons]
        rw [if_pos (by simp), hat]
        simp only [List.map_cons, List.headD_cons]
        refine congrArg (a :: ·) ?_
        rw [ih r.battle_id _ (by
          rw [hat] at h
          simp only [List.length_cons] at h
          show (if r.battle_id = r.battle_id then (a :: t).tail else m r.battle_id).length = _
          rw [if_pos rfl, List.tail_cons]
          omega)]
        show (if r.battle_id = r.battle_id then (a :: t).tail else m r.battle_id) = t
        rw [if_pos rfl, List.tail_cons]
      · simp only [revAssign, List.filter_cons]
        rw [List.filter_cons, if_neg (by simp [hb])] at h
        rw [if_neg (by simp [hb])]
        rw [ih bid _ (by
          show (if bid = r.battle_id then (m r.battle_id).tail else m bid).length = _
          rw [if_neg (fun hq => hb hq.symm)]
          exact h)]
        show (if bid = r.battle_id then (m r.battle_id).tail else m bid) = m bid
        rw [if_neg (fun hq => hb hq.symm)]

theorem revAssign_filter_hp :
    ∀ (rs : List WRow) (bid : Nat) (m : Nat → List (Option Int)),
      ((revAssign m rs).filter (fun x => x.battle_id = bid)).map (fun x => x.tower_hp) =
        (rs.filter (fun r => r.battle_id = bid)).map (fun r => r.tower_hp) := by
  intro rs
  induction rs with
  | nil => intro bid m; rfl
  | cons r rest ih =>
      intro bid m
      by_cases hb : r.battle_id = bid
      · simp only [revAssign, List.filter_cons]
        rw [if_pos (by simp [hb]), if_pos (by simp [hb])]
        simp only [List.map_cons, ih]
      · simp only [revAssign, List.filter_cons]
        rw [if_neg (by simp [hb]), if_neg (by simp [hb])]
        exact ih bid _

theorem revAssign_dmg :
    ∀ (rs : List WRow) (m : Nat → List (Option Int)) (x : FRow),
      x ∈ revAssign m rs → x.dmg_dif = subOpt x.tower_hp x.opp_tower_hp := by
  intro rs
  induction rs with
  | nil => intro m x hx; exact absurd hx (List.not_mem_nil x)
  | cons r rest ih =>
      intro m x hx
      rcases List.mem_cons.mp hx with h | h
      · subst h; rfl
      · exact ih _ x h

theorem map_dmg_zipWith (l : List FRow)
    (h : ∀ x ∈ l, x.dmg_dif = subOpt x.tower_hp x.opp_tower_hp) :
    l.map (fun x => x.dmg_dif) =
      List.zipWith subOpt (l.map (fun x => x.tower_hp)) (l.map (fun x => x.opp_tower_hp)) := by
  induction l with
  | nil => rfl
  | cons x rest ih =>
      simp only [List.map_cons, List.zipWith_cons_cons]
      rw [h x (List.mem_cons_self x rest), ih (fun y hy => h y (List.mem_cons_of_mem x hy))]

theorem stringMk_data (s : String) : String.mk s.data = s := by cases s; rfl

theorem stripListWs_eq (l : List Char) :
    stripListWs l = List.rdropWhile Char.isWhitespace (List.dropWhile Char.isWhitespace l) := rfl

theorem dropWhile_rdropWhile_dropWhile (l : List Char) :
    List.dropWhile Char.isWhitespace
        (List.rdropWhile Char.isWhitespace (List.dropWhile Char.isWhitespace l)) =
      List.rdropWhile Char.isWhitespace (List.dropWhile Char.isWhitespace l) := by
  obtain ⟨t, ht⟩ :=
    List.rdropWhile_prefix Char.isWhitespace (List.dropWhile Char.isWhitespace l)
  cases hX : List.rdropWhile Char.isWhitespace (List.dropWhile Char.isWhitespace l) with
  | nil => rfl
  | cons a tX =>
      have hY : List.dropWhile Char.isWhitespace (List.dropWhile Char.isWhitespace l) =
          List.dropWhile Char.isWhitespace l := List.dropWhile_idempotent _ _
      rw [hX] at ht
      have ha : ¬ a.isWhitespace = true := by
        intro hws
        rw [← ht, List.cons_append, List.dropWhile_cons, if_pos hws] at hY
        have h1 := congrArg List.length hY
        have h2 : (List.dropWhile Char.isWhitespace (tX ++ t)).length ≤ (tX ++ t).length :=
          (List.dropWhile_sublist Char.isWhitespace).length_le
        simp only [List.length_cons] at h1
        omega
      rw [List.dropWhile_cons, if_neg ha]

theorem stripListWs_idem (l : List Char) : stripListWs (stripListWs l) = stripListWs l := by
  rw [stripListWs_eq l, stripListWs_eq, dropWhile_rdropWhile_dropWhile,
    List.rdropWhile_idempotent]

theorem pyStrip_idem (s : String) : pyStrip (pyStrip s) = pyStrip s := by
  have : (pyStrip s).data = stripListWs s.data := rfl
  simp only [pyStrip, this, stripListWs_idem]

theorem parseQuoted_append (x r : List Char) (hx : squote ∉ x) :
    parseQuoted (x ++ squote :: r) = some (x, r) := by
  induction x with
  | nil => simp [parseQuoted]
  | cons a as ih =>
      have ha : ¬ a = squote := fun h => hx (h ▸ List.mem_cons_self a as)
      simp only [List.cons_append, parseQuoted, if_neg ha, List.append_eq,
        ih (fun h => hx (List.mem_cons_of_mem a h))]

theorem tailReprL_length_le (xs : List (List Char)) : xs.length ≤ (tailReprL xs).length := by
  induction xs with
  | nil => simp [tailReprL]
  | cons y ys ih => simp only [tailReprL, List.length_cons, List.length_append]; omega

theorem parseItemsTail_repr :
    ∀ (xs : List (List Char)) (fuel : Nat), xs.length ≤ fuel → (∀ y ∈ xs, squote ∉ y) →
      parseItemsTail fuel rbrackChar (tailReprL xs) = some xs := by
  intro xs
  induction xs with
  | nil =>
      intro fuel _ _
      cases fuel <;> simp [parseItemsTail, tailReprL]
  | cons y ys ih =>
      intro fuel hf hq
      cases fuel with
      | zero => simp at hf
      | succ f =>
          have h1 := parseQuoted_append y (tailReprL ys) (hq y (List.mem_cons_self y ys))
          have h2 := ih f (by simpa using hf) (fun z hz => hq z (List.mem_cons_of_mem y hz))
          simp [tailReprL, parseItemsTail, h1, h2]

theorem literalEvalDeck_repr (xs : List String) (h : ∀ x ∈ xs, squote ∉ x.data) :
    literalEvalDeck (reprDeck xs) = some xs := by
  cases xs with
  | nil => rfl
  | cons x rest =>
      have hmk : (reprDeck (x :: rest)).data =
          lbrackChar :: squote ::
            (x.data ++ squote :: tailReprL (rest.map String.data)) := rfl
      have h1 := parseQuoted_append x.data (tailReprL (rest.map String.data))
        (h x (List.mem_cons_self x rest))
      have h2 := parseItemsTail_repr (rest.map String.data)
        (tailReprL (rest.map String.data)).length
        (by simpa using tailReprL_length_le (rest.map String.data))
        (by
          intro y hy
          obtain ⟨z, hz, rfl⟩ := List.mem_map.mp hy
          exact h z (List.mem_cons_of_mem x hz))
      have hne : ¬ squote = rbrackChar := by decide
      have h3 : ∀ (l : List String), l.map (fun a => String.mk (String.data a)) = l := by
        intro l
        induction l with
        | nil => rfl
        | cons b bs ihb => simp only [List.map_cons, stringMk_data, ihb]
      simp [literalEvalDeck, hmk, h1, h2, hne, stringMk_data, h3, List.map_map,
        Function.comp_def]

/-! ## Claims -/

/-- Claim C1 (code-bug evidence): when both required columns are present,
the miner does NOT run Pipeline A to completion — line 109 reads the
module-level name `rules` before line 111 binds it, so the run aborts with
a `NameError` on every valid input; a missing required column still aborts
with the `ValueError` of line 31. -/
theorem aaLosers_always_errors :
    aaLosersMain true true = Except.error RunError.nameError ∧
    aaLosersMain false true = Except.error RunError.valueError ∧
    aaLosersMain true false = Except.error RunError.valueError := by
  refine ⟨?_, rfl, rfl⟩
  rfl

/-- Claim C2 counterexample: a battle whose player-1 literals parse but
whose player-2 literals do not contributes exactly one output row, so the
output is not `2 x (battles with both players parseable)` and rows are not
contributed only in pairs. -/
theorem restructure_pair_counterexample :
    ([battleHalf].map RawBattle.battle_id).Nodup ∧
    (restructure (dedupBattles [battleHalf])).length ≠ 2 * bothParseCount [battleHalf] := by
  refine ⟨by decide, by decide⟩

/-- Claim C2 (amended): for every input with no duplicate `battle_id`, the
restructurer emits one row per player slot whose deck and stats literals
both parse (so a battle with both players parseable contributes a pair,
and when every battle parses fully the count is `2 x number of battles`). -/
theorem restructure_row_count (df : List RawBattle)
    (h : (df.map RawBattle.battle_id).Nodup) :
    (restructure (dedupBattles df)).length =
      (df.map (fun b => (if (parsePlayer b 1).isSome then 1 else 0) +
        (if (parsePlayer b 2).isSome then 1 else 0))).sum ∧
    ((∀ b ∈ df, (parsePlayer b 1).isSome ∧ (parsePlayer b 2).isSome) →
      (restructure (dedupBattles df)).length = 2 * df.length) := by
  rw [dedupBattles_eq_self df h]
  refine ⟨restructure_length df, fun hall => ?_⟩
  rw [restructure_length df]
  have hsum : ∀ (l : List RawBattle),
      (∀ b ∈ l, (parsePlayer b 1).isSome ∧ (parsePlayer b 2).isSome) →
      (l.map (fun b => (if (parsePlayer b 1).isSome then 1 else 0) +
        (if (parsePlayer b 2).isSome then 1 else 0))).sum = 2 * l.length := by
    intro l hl
    induction l with
    | nil => rfl
    | cons b bs ihb =>
        simp only [List.map_cons, List.sum_cons, List.length_cons]
        rw [if_pos (hl b (List.mem_cons_self b bs)).1,
          if_pos (hl b (List.mem_cons_self b bs)).2,
          ihb (fun x hx => hl x (List.mem_cons_of_mem b hx))]
        omega
  exact hsum df hall

/-- Witness for the amended Claim C2 at a two-battle input (one fully
parseable battle, one battle with only player 1 parseable). -/
theorem restructure_row_count_witness :
    (restructure (dedupBattles [battleFull, battleHalf])).length =
      ([battleFull, battleHalf].map (fun b => (if (parsePlayer b 1).isSome then 1 else 0) +
        (if (parsePlayer b 2).isSome then 1 else 0))).sum :=
  (restructure_row_count [battleFull, battleHalf] (by decide)).1

/-- Claim C3: every row of the restructurer's output has `winner` in
`{0, 1}`, and `winner` is the fixed function of `player_num` alone
(`1` iff `player_num = 1`), regardless of `game_result`. -/
theorem winner_positional (df : List RawBattle) (r : FRow)
    (hr : r ∈ step2Pipeline df) :
    (r.winner = 0 ∨ r.winner = 1) ∧
    r.winner = (if r.player_num = 1 then 1 else 0) := by
  have h1 : r.toWRow ∈ addWinner (restructure (dedupBattles df)) := by
    have hm := revAssign_map_toWRow (addWinner (restructure (dedupBattles df)))
      (fun bid => (towerSeq (addWinner (restructure (dedupBattles df))) bid).reverse)
    rw [← hm]
    exact List.mem_map_of_mem FRow.toWRow hr
  obtain ⟨p, hp, he⟩ := List.mem_map.mp h1
  have hw : r.toWRow.winner = (if r.toWRow.player_num = 1 then 1 else 0) := by
    rw [← he]
  refine ⟨?_, hw⟩
  rw [hw]
  by_cases hpn : r.toWRow.player_num = 1
  · rw [if_pos hpn]; exact Or.inr rfl
  · rw [if_neg hpn]; exact Or.inl rfl

/-- Witness for Claim C3 at the first row of a concrete one-battle run. -/
theorem winner_positional_witness :
    (sampleRow1.winner = 0 ∨ sampleRow1.winner = 1) ∧
    sampleRow1.winner = (if sampleRow1.player_num = 1 then 1 else 0) :=
  winner_positional [battleFull] sampleRow1 (by decide)

/-- Claim C4: in a two-row battle group with tower HPs `[h1, h2]`,
`opp_tower_hp` is the element-wise reversal `[h2, h1]` and `dmg_dif` is
the element-wise difference `tower_hp - opp_tower_hp`. -/
theorem opp_tower_swap (rs : List WRow) (bid : Nat) (h1 h2 : Option Int)
    (hg : (rs.filter (fun r => r.battle_id = bid)).map (fun r => r.tower_hp) = [h1, h2]) :
    ((addOppDmg rs).filter (fun x => x.battle_id = bid)).map
      (fun x => x.opp_tower_hp) = [h2, h1] ∧
    ((addOppDmg rs).filter (fun x => x.battle_id = bid)).map
      (fun x => x.dmg_dif) = [subOpt h1 h2, subOpt h2 h1] := by
  have hts : towerSeq rs bid = [h1, h2] := hg
  have hlen : ((towerSeq rs bid).reverse).length =
      (rs.filter (fun r => r.battle_id = bid)).length := by
    simp [towerSeq]
  have hopp := revAssign_filter_opp rs bid (fun b => (towerSeq rs b).reverse) hlen
  have hhp := revAssign_filter_hp rs bid (fun b => (towerSeq rs b).reverse)
  constructor
  · show ((revAssign (fun b => (towerSeq rs b).reverse) rs).filter
      (fun x => x.battle_id = bid)).map (fun x => x.opp_tower_hp) = [h2, h1]
    rw [hopp]
    show (towerSeq rs bid).reverse = [h2, h1]
    rw [hts]
    rfl
  · have hdmg := map_dmg_zipWith
      ((addOppDmg rs).filter (fun x => x.battle_id = bid))
      (fun x hx => revAssign_dmg rs (fun b => (towerSeq rs b).reverse) x
        (List.mem_of_mem_filter hx))
    rw [hdmg]
    show List.zipWith subOpt
      (((revAssign (fun b => (towerSeq rs b).reverse) rs).filter
        (fun x => x.battle_id = bid)).map (fun x => x.tower_hp))
      (((revAssign (fun b => (towerSeq rs b).reverse) rs).filter
        (fun x => x.battle_id = bid)).map (fun x => x.opp_tower_hp)) = _
    rw [hhp, hopp, hg]
    show List.zipWith subOpt [h1, h2] (towerSeq rs bid).reverse = _
    rw [hts]
    rfl

/-- Witness for Claim C4: tower HPs `[100, 80]` give
`opp_tower_hp = [80, 100]` and `dmg_dif = [20, -20]`. -/
theorem opp_tower_swap_witness :
    ((addOppDmg sampleWRows).filter (fun x => x.battle_id = 7)).map
      (fun x => x.opp_tower_hp) = [some 80, some 100] ∧
    ((addOppDmg sampleWRows).filter (fun x => x.battle_id = 7)).map
      (fun x => x.dmg_dif) = [some 20, some (-20)] :=
  opp_tower_swap sampleWRows 7 (some 100) (some 80) (by decide)

/-- Claim C5: every rule surviving the transformations applied before the
write to `rules_predicting_LOSS.csv` has consequent exactly
`{OUTCOME=LOSS}` (and its readable consequent string is `OUTCOME=LOSS`). -/
theorem loss_rules_consequent (minCard maxCard : Int) (minLift : Option Rat)
    (rs : List Rule) (r : Rule)
    (hr : r ∈ finalLossRules minCard maxCard minLift rs) :
    r.consequents = ({"OUTCOME=LOSS"} : Finset String) ∧
    joinSorted r.consequents = "OUTCOME=LOSS" := by
  have h1 : r ∈ liftFilter minLift (cardinalityFilter minCard maxCard
      (lossConsequentFilter rs)) := List.mem_mergeSort.mp hr
  have h2 : r ∈ cardinalityFilter minCard maxCard (lossConsequentFilter rs) := by
    cases minLift with
    | none => exact h1
    | some m =>
        simp only [liftFilter] at h1
        exact List.mem_of_mem_filter h1
  have h3 : r ∈ lossConsequentFilter rs := by
    simp only [cardinalityFilter] at h2
    exact List.mem_of_mem_filter h2
  have hc : r.consequents = ({"OUTCOME=LOSS"} : Finset String) := by
    simp only [lossConsequentFilter, List.mem_filter] at h3
    exact of_decide_eq_true h3.2
  refine ⟨hc, ?_⟩
  rw [hc]
  show String.intercalate ", " (Finset.sort (fun a b => a ≤ b) {"OUTCOME=LOSS"}) = _
  rw [Finset.sort_singleton]
  rfl

/-- Witness for Claim C5 at a concrete two-rule table. -/
theorem loss_rules_consequent_witness :
    sampleLossRule.consequents = ({"OUTCOME=LOSS"} : Finset String) ∧
    joinSorted sampleLossRule.consequents = "OUTCOME=LOSS" :=
  loss_rules_consequent 2 4 (some 1) [sampleLossRule, sampleWinRule]
    sampleLossRule (by
      simp only [finalLossRules, List.mem_mergeSort, liftFilter, cardinalityFilter,
        lossConsequentFilter, List.mem_filter, decide_eq_true_eq, sampleLossRule,
        sampleWinRule]
      norm_num [Finset.card_singleton])

/-- Claim C6: after `ensure_singletons`, every member of every itemset of
length at least 2 has a singleton entry, whose support is the one-hot
column mean whenever the mined table had no singleton for it; the
hypothesis records the mining invariant that every item of the mined
table is a column of `X`. -/
theorem ensure_singletons_back_fill (df : List ItemsetRow) (X : OneHot)
    (hcols : ∀ r ∈ df, ∀ i ∈ r.itemsets, i ∈ X.cols) :
    ∀ s ∈ ensure_singletons df X, 2 ≤ s.itemsets.card → ∀ i ∈ s.itemsets,
      ∃ t ∈ ensure_singletons df X, t.itemsets = {i} ∧
        ((∀ u ∈ df, u.itemsets ≠ {i}) → t.support = colMean X i) := by
  intro s hs hcard i hi
  have hsdf : s ∈ df := by
    simp only [ensure_singletons, List.mem_append] at hs
    rcases hs with h | h
    · exact h
    · exfalso
      obtain ⟨itm, _, hsome⟩ := List.mem_filterMap.mp h
      by_cases hX : itm ∈ X.cols
      · rw [if_pos hX] at hsome
        rw [← Option.some.inj hsome] at hcard
        simp at hcard
      · rw [if_neg hX] at hsome
        exact Option.noConfusion hsome
  have hmem : i ∈ itemsInSets df := by
    rw [itemsInSets, mem_dedupFirst]
    exact List.mem_flatMap.mpr ⟨s, hsdf, (Finset.mem_sort _).mpr hi⟩
  by_cases hex : ∃ u ∈ df, u.itemsets = {i}
  · obtain ⟨u, hu, huq⟩ := hex
    refine ⟨u, ?_, huq, fun hno => absurd huq (hno u hu)⟩
    simp only [ensure_singletons, List.mem_append]
    exact Or.inl hu
  · have hnex : i ∉ existingSingletons df := by
      intro hmem2
      apply hex
      simp only [existingSingletons, List.mem_flatMap, List.mem_filter] at hmem2
      obtain ⟨u, ⟨hu, hcard1⟩, hiu⟩ := hmem2
      obtain ⟨a, ha⟩ := Finset.card_eq_one.mp (of_decide_eq_true hcard1)
      have hia : i ∈ u.itemsets := (Finset.mem_sort _).mp hiu
      rw [ha] at hia
      exact ⟨u, hu, by rw [ha, Finset.mem_singleton.mp hia]⟩
    have hXi : i ∈ X.cols := hcols s hsdf i hi
    refine ⟨⟨colMean X i, {i}⟩, ?_, rfl, fun _ => rfl⟩
    simp only [ensure_singletons, List.mem_append]
    right
    refine List.mem_filterMap.mpr ⟨i, ?_, ?_⟩
    · exact List.mem_filter.mpr ⟨hmem, by simpa using hnex⟩
    · rw [if_pos hXi]

/-- Witness for Claim C6: the pair itemset `{golem, rage}` gets a `golem`
singleton back-filled with the empirical column mean. -/
theorem ensure_singletons_back_fill_witness :
    ∃ t ∈ ensure_singletons sampleItemsets sampleOneHot,
      t.itemsets = ({"golem"} : Finset String) ∧
        ((∀ u ∈ sampleItemsets, u.itemsets ≠ ({"golem"} : Finset String)) →
          t.support = colMean sampleOneHot "golem") :=
  ensure_singletons_back_fill sampleItemsets sampleOneHot (by decide)
    ⟨3 / 10, {"golem", "rage"}⟩
    (by
      simp only [ensure_singletons, List.mem_append, sampleItemsets]
      exact Or.inl (List.mem_cons_self _ _))
    (by decide) "golem" (by decide)

/-- Claim C7 counterexample: with `min_cardinality = max_cardinality = 1`
the filter keeps a one-antecedent rule even though
`antecedent_length + 1 = 2` is outside `[1, 1]`, so the claimed
equivalence fails for that configuration. -/
theorem cardinality_equiv_counterexample :
    sampleLossRule ∈ cardinalityFilter 1 1 [sampleLossRule] ∧
    ¬((1 : Int) ≤ (sampleLossRule.antecedents.card : Int) + 1 ∧
      (sampleLossRule.antecedents.card : Int) + 1 ≤ (1 : Int)) := by
  constructor
  · simp only [cardinalityFilter, List.mem_filter, decide_eq_true_eq, sampleLossRule]
    norm_num [Finset.card_singleton]
  · norm_num [sampleLossRule, Finset.card_singleton]

/-- Claim C7 (amended): a rule is kept iff its antecedent length lies in
`[max(1, min_cardinality-1), max(1, max_cardinality-1)]`, and when both
cardinality bounds are at least 2 this is equivalent to
`antecedent_length + 1` lying in `[min_cardinality, max_cardinality]`. -/
theorem cardinalityFilter_bounds (minCard maxCard : Int) (rs : List Rule) (r : Rule) :
    (r ∈ cardinalityFilter minCard maxCard rs ↔
      r ∈ rs ∧ max 1 (minCard - 1) ≤ (r.antecedents.card : Int) ∧
        (r.antecedents.card : Int) ≤ max 1 (maxCard - 1)) ∧
    (2 ≤ minCard → 2 ≤ maxCard →
      (r ∈ cardinalityFilter minCard maxCard rs ↔
        r ∈ rs ∧ minCard ≤ (r.antecedents.card : Int) + 1 ∧
          (r.antecedents.card : Int) + 1 ≤ maxCard)) := by
  have hbase : r ∈ cardinalityFilter minCard maxCard rs ↔
      r ∈ rs ∧ max 1 (minCard - 1) ≤ (r.antecedents.card : Int) ∧
        (r.antecedents.card : Int) ≤ max 1 (maxCard - 1) := by
    simp [cardinalityFilter, List.mem_filter]
  refine ⟨hbase, fun hmin hmax => ?_⟩
  rw [hbase]
  have e1 : max 1 (minCard - 1) = minCard - 1 := max_eq_right (by omega)
  have e2 : max 1 (maxCard - 1) = maxCard - 1 := max_eq_right (by omega)
  rw [e1, e2]
  constructor
  · rintro ⟨ha, hb, hc⟩
    exact ⟨ha, by omega, by omega⟩
  · rintro ⟨ha, hb, hc⟩
    exact ⟨ha, by omega, by omega⟩

/-- Witness for the amended Claim C7 at the default configuration
`min_cardinality = 2`, `max_cardinality = 4`. -/
theorem cardinalityFilter_bounds_witness :
    sampleLossRule ∈ cardinalityFilter 2 4 [sampleLossRule] ↔
      sampleLossRule ∈ [sampleLossRule] ∧
        (2 : Int) ≤ (sampleLossRule.antecedents.card : Int) + 1 ∧
        (sampleLossRule.antecedents.card : Int) + 1 ≤ (4 : Int) :=
  (cardinalityFilter_bounds 2 4 [sampleLossRule] sampleLossRule).2
    (by norm_num) (by norm_num)

/-- Claim C8 counterexample: parsing the plain string `a, <q> b<q>` takes
the comma-split fallback and yields an item with a leading space, so
re-parsing that already-parsed list strips it and changes the sequence —
`parse_deck` is not idempotent on all of its own outputs. -/
theorem parse_deck_idem_counterexample :
    parse_deck (Cell.lst (parse_deck cellCex)) ≠ parse_deck cellCex := by decide

/-- Claim C8 (amended): `parse_deck` never raises — a failed literal
evaluation degrades to the comma-split fallback; a list cell is mapped to
its items stringified and stripped, hence re-parsing is the identity once
items are stripped (in particular on any literal-parsed output); and
stringifying a list of stripped, quote-free items then re-parsing
round-trips exactly. -/
theorem parse_deck_spec :
    (∀ xs : List String, parse_deck (Cell.lst xs) = xs.map pyStrip) ∧
    (∀ s : String, literalEvalDeck s = none →
      parse_deck (Cell.str s) = fallbackSplit s) ∧
    (∀ xs : List String,
      parse_deck (Cell.lst (parse_deck (Cell.lst xs))) = parse_deck (Cell.lst xs)) ∧
    (∀ xs : List String, (∀ x ∈ xs, squote ∉ x.data ∧ pyStrip x = x) →
      parse_deck (Cell.str (reprDeck xs)) = xs) := by
  refine ⟨fun xs => rfl, fun s hs => by simp [parse_deck, hs], fun xs => ?_, fun xs h => ?_⟩
  · show ((xs.map pyStrip).map pyStrip) = xs.map pyStrip
    rw [List.map_map]
    exact List.map_congr_left (fun a _ => pyStrip_idem a)
  · have hlit := literalEvalDeck_repr xs (fun x hx => (h x hx).1)
    simp only [parse_deck, hlit]
    rw [List.map_congr_left (fun a ha => (h a ha).2)]
    exact List.map_id xs

/-- Witness for the amended Claim C8: a concrete two-card deck
round-trips through stringification and re-parsing. -/
theorem parse_deck_spec_witness :
    parse_deck (Cell.str (reprDeck ["zap-ev1", "executioner-ev1"])) =
      ["zap-ev1", "executioner-ev1"] :=
  parse_deck_spec.2.2.2 ["zap-ev1", "executioner-ev1"] (by decide)

theorem lookupCell_eq_none (rec : List (String × String)) (cols : List String)
    (hkeys : ∀ kv ∈ rec, kv.1 ∈ cols) (c : String) (hc : c ∉ cols) :
    lookupCell rec c = none := by
  induction rec with
  | nil => rfl
  | cons kv rest ih =>
      have hkv : kv.1 ∈ cols := hkeys kv (List.mem_cons_self kv rest)
      simp only [lookupCell]
      rw [if_neg (fun (he : kv.1 = c) => hc (he ▸ hkv))]
      exact ih (fun kv2 h2 => hkeys kv2 (List.mem_cons_of_mem kv h2))

/-- Claim C9: the merger's concatenation has the union of the two column
sets, the sum of the two row counts with loss rows first, and a cell of a
loss row at a column the loss table lacks is null. -/
theorem merge_concat_spec (d1 d2 : DF) :
    (concatRules d1 d2).rows.length = d1.recs.length + d2.recs.length ∧
    (∀ c : String, c ∈ (concatRules d1 d2).cols ↔ c ∈ d1.cols ∨ c ∈ d2.cols) ∧
    (concatRules d1 d2).rows =
      d1.recs.map (reindex (concatCols d1 d2)) ++
        d2.recs.map (reindex (concatCols d1 d2)) ∧
    (∀ rec ∈ d1.recs, (∀ kv ∈ rec, kv.1 ∈ d1.cols) →
      ∀ c, c ∈ (concatRules d1 d2).cols → c ∉ d1.cols → lookupCell rec c = none) := by
  refine ⟨by simp [concatRules], fun c => ?_, by simp [concatRules], ?_⟩
  · simp only [concatRules, concatCols, List.mem_append, List.mem_filter,
      decide_not, Bool.not_eq_eq_eq_not, Bool.not_true, decide_eq_false_iff_not]
    constructor
    · rintro (h | ⟨h, _⟩)
      · exact Or.inl h
      · exact Or.inr h
    · rintro (h | h)
      · exact Or.inl h
      · by_cases h1 : c ∈ d1.cols
        · exact Or.inl h1
        · exact Or.inr ⟨h, h1⟩
  · intro rec _ hkeys c _ hc
    exact lookupCell_eq_none rec d1.cols hkeys c hc

/-- Witness for Claim C9: merging a `{A,B,C}` table with a `{B,C,D}`
table leaves the `D` cell of a loss row null. -/
theorem merge_concat_spec_witness :
    lookupCell [("A", "a1"), ("B", "b1"), ("C", "c1")] "D" = none :=
  (merge_concat_spec sampleDfLoss sampleDfWin).2.2.2
    [("A", "a1"), ("B", "b1"), ("C", "c1")] (by decide) (by decide) "D"
    (by decide) (by decide)

/-- Claim C10: a row with a NaN `winner` is treated as a loss — its
Pipeline A transaction ends with the `OUTCOME=LOSS` item, and it belongs
to Pipeline B's losers-only corpus. -/
theorem nan_winner_loss (r : MinerRow) (df : List MinerRow)
    (hw : r.winner = none) :
    transWithOutcome r =
      dedupFirst ((parse_deck r.player_deck).filter (fun c => c ≠ "")) ++
        ["OUTCOME=LOSS"] ∧
    (r ∈ df → r ∈ lossOnly df) := by
  constructor
  · simp [transWithOutcome, outcomeItem, fillnaWinner, hw]
  · intro hm
    simp only [lossOnly, List.mem_filter]
    exact ⟨hm, by simp [fillnaWinner, hw]⟩

/-- Witness for Claim C10 at a concrete NaN-winner row. -/
theorem nan_winner_loss_witness :
    transWithOutcome sampleNaNRow =
      dedupFirst ((parse_deck sampleNaNRow.player_deck).filter (fun c => c ≠ "")) ++
        ["OUTCOME=LOSS"] ∧
    (sampleNaNRow ∈ [sampleNaNRow] → sampleNaNRow ∈ lossOnly [sampleNaNRow]) :=
  nan_winner_loss sampleNaNRow [sampleNaNRow] rfl

end CRA
